import Mathlib

/-!
Verification of the postgres-mcp-server core logic: the query-safety guard
(`src/utils/validation.py`), the schema normalizer (`src/utils/tables_parser.py`),
and the operation boundaries of `src/main.py` (`execute_query`, `database_status`).

Python strings are modelled as `List Char`; Python's `str.strip` and `str.split()`
(no-argument form: split on whitespace runs, discarding empty pieces) are embedded
as structurally recursive functions so that all definitions evaluate in the kernel.

The repository runs on pydantic v2 (`fastmcp` requires it, and
`src/utils/settings.py` imports `pydantic_settings`, a v2-only package), under
which the bare class `pydantic.BaseModel` cannot be instantiated directly:
every `pydantic.BaseModel(**...)` call in `src/main.py` raises
`PydanticUserError` (error code `base-model-instantiated`), including the ones
inside the `except` handlers. The embedding models this faithfully: an
`Except.error` result of an operation is an exception escaping it uncaught.
-/

/-- Whitespace characters recognised by Python's `str.strip()` / `str.split()`
(ASCII range; exotic Unicode space code points are outside the modelled domain). -/
def pyIsSpace (c : Char) : Bool :=
  c = ' ' || c = '\t' || c = '\n' || c = '\r' || c = '\x0b' || c = '\x0c'

/-- Python `str.strip()`: drop leading and trailing whitespace. -/
def pyStrip (s : List Char) : List Char :=
  ((s.dropWhile pyIsSpace).reverse.dropWhile pyIsSpace).reverse

/-- Accumulator worker for `pyWords`; `acc` holds the (reversed) current word. -/
def pyWordsAux : List Char → List Char → List (List Char)
  | [], acc => if acc = [] then [] else [acc.reverse]
  | c :: cs, acc =>
    if pyIsSpace c then
      if acc = [] then pyWordsAux cs [] else acc.reverse :: pyWordsAux cs []
    else pyWordsAux cs (c :: acc)

/-- Python `str.split()` with no separator: maximal whitespace-free words, in order;
empty pieces are never produced. -/
def pyWords (s : List Char) : List (List Char) := pyWordsAux s []

/-- Python `str.upper()` (ASCII letters; all inputs in the allow-set comparison are ASCII). -/
def pyToUpper (s : List Char) : List Char := s.map Char.toUpper

/-- The allow-set of leading keywords, from `src/utils/validation.py`. -/
def ALLOWED_KEYWORDS : List (List Char) :=
  ["SELECT".data, "SHOW".data, "DESCRIBE".data, "DESC".data, "EXPLAIN".data]

/-- Embedding of `check_query` from `src/utils/validation.py`:
`if not query.strip(): return False` then
`first_word = query.strip().split()[0].upper()` and membership in the allow-set.
(`split()` of a non-empty stripped string is non-empty, so the `[0]` indexing is
modelled by `headD []`.) -/
def check_query (query : String) : Bool :=
  if pyStrip query.data = [] then false
  else
    let first_word := pyToUpper ((pyWords (pyStrip query.data)).headD [])
    ALLOWED_KEYWORDS.contains first_word

/-- The guard predicate exactly as the spec words it: the trimmed string is
non-empty and its first whitespace-delimited token, uppercased, is in the
fixed allow-set. -/
def isSafeSpec (s : String) : Prop :=
  pyStrip s.data ≠ [] ∧
    pyToUpper ((pyWords (pyStrip s.data)).headD []) ∈ ALLOWED_KEYWORDS

/-- A Python value as it appears in the modelled data flow: column metadata
fields and result cells are strings, integers, booleans or `None`. -/
inductive Value : Type where
  | str (s : String)
  | int (n : Int)
  | bool (b : Bool)
  | null
  deriving DecidableEq, Repr

/-- The per-column dictionary built by `parse_tables`
(`src/utils/tables_parser.py`): always all three fields. -/
structure ColumnDescriptor : Type where
  data_type : Value
  is_nullable : Value
  character_maximum_length : Value
  deriving DecidableEq, Repr

/-- One element of the `query_results` sequence fed to `parse_tables`.
The `information_schema.columns` query of `src/main.py` yields 6-tuples whose
first three components (schema, table, column names) are strings; a `malformed`
row stands for a tuple whose arity is not 6, on which the Python unpacking
`for schema, table, column, dtype, nullable, char_len in query_results`
raises `ValueError`. -/
inductive Row : Type where
  | mk (schema table column : String) (dtype nullable charLen : Value)
  | malformed (arity : Nat)
  deriving DecidableEq, Repr

/-- A row of the well-formed shape (unpacking succeeds). -/
def Row.isMk : Row → Bool
  | .mk _ _ _ _ _ _ => true
  | .malformed _ => false

/-- Insertion-ordered association list: the model of a Python `dict`
(keys unique, first-insertion position kept, assignment overwrites in place). -/
abbrev ColMap : Type := List (String × ColumnDescriptor)

/-- Table name → column map. -/
abbrev TabMap : Type := List (String × ColMap)

/-- Schema name → table map: the nested structure built by `parse_tables`. -/
abbrev SchemaTree : Type := List (String × TabMap)

/-- Python dict assignment `m[k] = v`: overwrite in place if `k` is present,
else append at the end. -/
def setk {α : Type} (k : String) (v : α) : List (String × α) → List (String × α)
  | [] => [(k, v)]
  | (k', v') :: rest => if k' = k then (k', v) :: rest else (k', v') :: setk k v rest

/-- Python `defaultdict` access-and-update `m[k] = f(m[k])` with default `d`:
if `k` is absent the factory value `d` is (conceptually) created, transformed by
`f` and appended; if present its value is transformed in place. -/
def upsert {α : Type} (k : String) (f : α → α) (d : α) : List (String × α) → List (String × α)
  | [] => [(k, f d)]
  | (k', v) :: rest => if k' = k then (k', f v) :: rest else (k', v) :: upsert k f d rest

/-- Dictionary lookup, `none` when the key is absent. -/
def lookupA {α : Type} : List (String × α) → String → Option α
  | [], _ => none
  | (k', v) :: rest, k => if k' = k then some v else lookupA rest k

/-- The loop body of `parse_tables`:
`db_structure[schema][table][column] = {"data_type": dtype, ...}`.
The two outer accesses are `defaultdict` accesses (factory: empty dict), the
innermost is a plain assignment. -/
def insertCol (tr : SchemaTree) (s t c : String) (d : ColumnDescriptor) : SchemaTree :=
  upsert s (fun tm => upsert t (fun cm => setk c d cm) [] tm) [] tr

/-- The `for` loop of `parse_tables` over `query_results` with the surrounding
`try`: a malformed row raises `ValueError`, the handler logs and falls off the
function, i.e. Python returns `None` — modelled as `none`. -/
def parseLoop : List Row → SchemaTree → Option SchemaTree
  | [], acc => some acc
  | Row.mk s t c d n l :: rest, acc => parseLoop rest (insertCol acc s t c ⟨d, n, l⟩)
  | Row.malformed _ :: _, _ => none

/-- Embedding of `parse_tables` from `src/utils/tables_parser.py`.
On success the code returns `json.loads(json.dumps(db_structure))`, which maps
the nested `defaultdict` to plain nested dicts with the same (string) keys and
entries — the identity on this model; on any exception it returns `None`. -/
def parse_tables (rows : List Row) : Option SchemaTree := parseLoop rows []

/-- Flattening a `SchemaTree` back to `(schema, table, column, dtype, nullable,
maxlen)` rows, in tree order (spec-side definition for the idempotence claim). -/
def flattenTree (tr : SchemaTree) : List Row :=
  tr.flatMap (fun sp => sp.2.flatMap (fun tp => tp.2.map (fun cp =>
    Row.mk sp.1 tp.1 cp.1 cp.2.data_type cp.2.is_nullable cp.2.character_maximum_length)))

/-- Does the row carry key `(s, t, c)`? -/
def rowMatches (s t c : String) : Row → Bool
  | .mk s' t' c' _ _ _ => s' = s && t' = t && c' = c
  | .malformed _ => false

/-- The descriptor a well-formed row carries. -/
def descOf : Row → Option ColumnDescriptor
  | .mk _ _ _ d n l => some ⟨d, n, l⟩
  | .malformed _ => none

/-- Descriptor of the last row of `rows` whose key is `(s, t, c)` (spec-side
definition for the duplicate-key claim). -/
def lastSeen (s t c : String) : List Row → Option ColumnDescriptor
  | [] => none
  | r :: rest =>
    match lastSeen s t c rest with
    | some d => some d
    | none => if rowMatches s t c r then descOf r else none

/-- Three-level lookup in a `SchemaTree`. -/
def lookup3 (tr : SchemaTree) (s t c : String) : Option ColumnDescriptor :=
  match lookupA tr s with
  | none => none
  | some tm =>
    match lookupA tm t with
    | none => none
    | some cm => lookupA cm c

/-- A column map is well shaped: non-empty with unique keys. -/
def ColMapOk (cm : ColMap) : Prop := cm ≠ [] ∧ (cm.map Prod.fst).Nodup

/-- A table map is well shaped: non-empty, unique keys, well-shaped column maps. -/
def TabMapOk (tm : TabMap) : Prop :=
  tm ≠ [] ∧ (tm.map Prod.fst).Nodup ∧ ∀ p ∈ tm, ColMapOk p.2

/-- A schema tree is well shaped: unique keys and well-shaped table maps. -/
def TreeOk (tr : SchemaTree) : Prop :=
  (tr.map Prod.fst).Nodup ∧ ∀ p ∈ tr, TabMapOk p.2

/-- Outcome of running one SQL statement on a live cursor: column names plus
rows, or a raised database error (connection loss, SQL error, timeout),
carried as its message. -/
inductive ExecOutcome : Type where
  | ok (cols : List String) (rows : List (List Value))
  | fail (e : String)

/-- Result of `get_connection()` (`src/utils/db.py`): either a live
connection — abstracted as a function from SQL text to an outcome — or a
failed acquisition. (`get_connection` swallows the connect error and returns
`None`; the subsequent `with None` then raises inside the caller's `try`,
so acquisition failure still surfaces as an exception `e` there.) -/
inductive ConnAttempt : Type where
  | fail (e : String)
  | ok (exec : String → ExecOutcome)

/-- A Python object stored in a response dict: a scalar value, a fetched row
tuple, or a caught exception object. -/
inductive PyObj : Type where
  | v (x : Value)
  | row (cells : List Value)
  | exc (msg : String)
  deriving DecidableEq, Repr

/-- Field list of a Python dict used as a response payload. -/
abbrev Fields : Type := List (String × PyObj)

/-- A value returned by one of the public operations: a plain dict, or a
constructed pydantic model (the `model` constructor is what a successful
`pydantic.BaseModel(**fields)` would be; under pydantic v2 — required by
`fastmcp` and by the `pydantic_settings` import of `src/utils/settings.py` —
this program can never construct one, see `baseModel`). -/
inductive Resp : Type where
  | dict (fields : Fields)
  | model (fields : Fields)
  deriving DecidableEq, Repr

/-- Argument to a `pydantic.BaseModel(**x)` call: in the repository `x` is
either a dict or — on `execute_query`'s success path — the string produced by
`json.dumps`. -/
inductive DictOrStr : Type where
  | d (fields : Fields)
  | s (text : String)

/-- The Python exception raised by `f(**x)` when `x` is a string. -/
def starStarStrError : String :=
  "BaseModel() argument after ** must be a mapping, not str"

/-- The exception raised by pydantic v2 when the base class `BaseModel` is
instantiated directly (documented error code `base-model-instantiated`). -/
def pydanticUserError : String :=
  "Pydantic models should inherit from BaseModel, BaseModel cannot be instantiated directly"

/-- `pydantic.BaseModel(**x)`: on a string, Python itself raises `TypeError`
because `**` requires a mapping; on a dict the call reaches pydantic, and
pydantic v2 raises `PydanticUserError` because the base `BaseModel` class
cannot be instantiated directly. Every such call in `src/main.py` therefore
raises. -/
def baseModel (x : DictOrStr) : Except String Resp :=
  match x with
  | .d _fields => .error pydanticUserError
  | .s _ => .error starStarStrError

/-- The `err_response` dict built by every `except Exception as e` handler in
`src/main.py`: `{"message": "❌ Connection failed", "error": e}`. -/
def errFields (e : String) : Fields :=
  [("message", .v (.str "❌ Connection failed")), ("error", .exc e)]

/-- The `except Exception as e` handler shared by the operations of
`src/main.py`: it builds `err_response` and evaluates
`pydantic.BaseModel(**err_response)` (first as the `log.debug` argument, then
in the `return`). Under pydantic v2 that call itself raises
`PydanticUserError`, so the handler raises instead of returning the error
payload; the `.ok` branch records what would be returned if the construction
succeeded. -/
def errHandler (e : String) : Except String Resp :=
  match baseModel (.d (errFields e)) with
  | .ok m => .ok m
  | .error e2 => .error e2

/-- Python `dict(zip(columns, row))`: pairs are truncated to the shorter
sequence and inserted in order (duplicate column names overwrite in place). -/
def zipRow (cols : List String) (row : List Value) : List (String × Value) :=
  (List.zip cols row).foldl (fun acc p => setk p.1 p.2 acc) []

/-- Minimal `json.dumps` for one result row (indentation and string escaping
elided: the serialized text is only ever handed to `**`, which rejects any
string, so its exact content is never observed). -/
def jsonOfValue : Value → String
  | .str s => "\"" ++ s ++ "\""
  | .int n => toString n
  | .bool b => if b then "true" else "false"
  | .null => "null"

/-- Serialization of one row mapping. -/
def jsonOfRow (r : List (String × Value)) : String :=
  "\x7b" ++ String.intercalate ", "
    (r.map (fun p => "\"" ++ p.1 ++ "\": " ++ jsonOfValue p.2)) ++ "\x7d"

/-- `json.dumps(results, ...)` for the list of row mappings. -/
def jsonDumps (rows : List (List (String × Value))) : String :=
  "[" ++ String.intercalate ", " (rows.map jsonOfRow) ++ "]"

/-- The `try` body of `execute_query` (`src/main.py`): open a connection, run
the query, shape `results = [dict(zip(columns, row)) for row in rows]`,
serialize with `json.dumps`, then call `pydantic.BaseModel(**response)` on the
resulting *string* — which raises `TypeError`. An `Except.error` is an
exception propagating out of the `try` body. -/
def execBody (conn : ConnAttempt) (query : String) : Except String Resp :=
  match conn with
  | .fail e => .error e
  | .ok ex =>
    match ex query with
    | .fail e => .error e
    | .ok cols rows =>
      let columns := cols
      let results := rows.map (zipRow columns)
      let response := jsonDumps results
      baseModel (.s response)

/-- Embedding of the `execute_query` tool of `src/main.py`. The first
component is the returned value, where `Except.error` is an exception escaping
the operation uncaught: every exception of the `try` body reaches the
`except Exception` handler, whose own `pydantic.BaseModel(**err_response)`
call raises `PydanticUserError` past the boundary (see `errHandler`). The
second component records whether a connection/execution was ever attempted
(`false` on the guard-rejection path). -/
def execute_query (conn : ConnAttempt) (query : String) : Except String Resp × Bool :=
  if check_query query then
    (match execBody conn query with
     | .ok v => .ok v
     | .error e => errHandler e, true)
  else
    (.ok (.dict [("message", .v (.str "This query use non-safe first word")),
                 ("error", .v (.bool true))]), false)

/-- First diagnostic query of `database_status`. -/
def _query1 : String := "SELECT version();"

/-- Second diagnostic query of `database_status` (executed first by the code). -/
def _query2 : String := "SELECT current_database();"

/-- Request context: the `client_id` / `request_id` pair supplied by fastmcp. -/
structure Ctx : Type where
  client_id : Value
  request_id : Value

/-- `cur.execute(q).fetchone()`: first row of the result, or `None`. -/
def fetchone (ex : String → ExecOutcome) (q : String) : Except String PyObj :=
  match ex q with
  | .fail e => .error e
  | .ok _cols rows =>
    .ok (match rows.head? with
         | some r => .row r
         | none => .v .null)

/-- The `try` body of `database_status` (`src/main.py`): fetch the current
database name (`_query2`) and then the server version (`_query1`), extend the
response dict, and call `pydantic.BaseModel(**response)` — which under
pydantic v2 raises `PydanticUserError` inside the `try`. -/
def statusBody (ctx : Ctx) (conn : ConnAttempt) : Except String Resp :=
  match conn with
  | .fail e => .error e
  | .ok ex =>
    match fetchone ex _query2 with
    | .error e => .error e
    | .ok r2 =>
      match fetchone ex _query1 with
      | .error e => .error e
      | .ok r1 =>
        baseModel (.d [("client_id", .v ctx.client_id), ("request_id", .v ctx.request_id),
                       ("pg_database_name", r2), ("pg_version", r1)])

/-- Embedding of the `database_status` resource of `src/main.py`: the `try`
body followed by the `except Exception` handler. Every exception of the body —
including the `PydanticUserError` that the success path's own
`pydantic.BaseModel(**response)` call raises — reaches `errHandler`, which
raises `PydanticUserError` past the operation boundary. -/
def database_status (ctx : Ctx) (conn : ConnAttempt) : Except String Resp :=
  match statusBody ctx conn with
  | .ok v => .ok v
  | .error e => errHandler e

/-- One `(table, column, descriptor)` insertion into a table map, the shape the
`parse_tables` loop performs below a fixed schema key. -/
def stepTab (acc : TabMap) (q : String × String × ColumnDescriptor) : TabMap :=
  upsert q.1 (fun cm => setk q.2.1 q.2.2 cm) [] acc

/-- All `(table, column, descriptor)` triples of a table map, in order. -/
def flatTab (tm : TabMap) : List (String × String × ColumnDescriptor) :=
  tm.flatMap (fun tp => tp.2.map (fun cp => (tp.1, cp.1, cp.2)))

/-- One `(schema, table, column, descriptor)` insertion into a schema tree. -/
def stepTree (acc : SchemaTree) (q : String × String × String × ColumnDescriptor) : SchemaTree :=
  insertCol acc q.1 q.2.1 q.2.2.1 q.2.2.2

/-- All `(schema, table, column, descriptor)` quadruples of a tree, in order. -/
def flatQuads (tr : SchemaTree) : List (String × String × String × ColumnDescriptor) :=
  tr.flatMap (fun sp => (flatTab sp.2).map (fun q => (sp.1, q)))

/-- A quadruple as a `Row`. -/
def rowOfQuad (q : String × String × String × ColumnDescriptor) : Row :=
  Row.mk q.1 q.2.1 q.2.2.1 q.2.2.2.data_type q.2.2.2.is_nullable
    q.2.2.2.character_maximum_length

/-- Stub executor used for the documented `runQuery("SELECT 1")` experiment:
columns `["x"]`, one row `[1]`. -/
def stubExecC3 : String → ExecOutcome := fun _ => ExecOutcome.ok ["x"] [[Value.int 1]]

/-- Stub executor whose first status query succeeds and whose second fails:
exercises the second-step failure path of `database_status`. -/
def stubStatusExec : String → ExecOutcome := fun q =>
  if q = "SELECT current_database();" then
    ExecOutcome.ok ["current_database"] [[Value.str "postgres"]]
  else ExecOutcome.fail "timeout"

/-- The example row list of the spec (section 8). -/
def exRows : List Row :=
  [Row.mk "public" "users" "id" (Value.str "integer") (Value.str "NO") Value.null,
   Row.mk "public" "users" "name" (Value.str "varchar") (Value.str "YES") (Value.int 255)]

/-- The schema tree `parse_tables` builds from `exRows`. -/
def exTree : SchemaTree :=
  [("public", [("users",
    [("id", ⟨Value.str "integer", Value.str "NO", Value.null⟩),
     ("name", ⟨Value.str "varchar", Value.str "YES", Value.int 255⟩)])])]

/-- Two rows with the same `(schema, table, column)` key and different
descriptors. -/
def dupRows : List Row :=
  [Row.mk "public" "users" "id" (Value.str "integer") (Value.str "NO") Value.null,
   Row.mk "public" "users" "id" (Value.str "bigint") (Value.str "YES") Value.null]

theorem setk_eq_upsert {α : Type} (k : String) (v : α) (d : α) (m : List (String × α)) :
    setk k v m = upsert k (fun _ => v) d m := by
  induction m with
  | nil => rfl
  | cons p rest ih =>
    obtain ⟨k', v'⟩ := p
    by_cases h : k' = k <;> simp [setk, upsert, h, ih]

theorem upsert_ne_nil {α : Type} (k : String) (f : α → α) (d : α) (m : List (String × α)) :
    upsert k f d m ≠ [] := by
  cases m with
  | nil => simp [upsert]
  | cons p rest =>
    obtain ⟨k', v⟩ := p
    by_cases h : k' = k <;> simp [upsert, h]

theorem keys_upsert {α : Type} (k : String) (f : α → α) (d : α) (m : List (String × α)) :
    (upsert k f d m).map Prod.fst =
      if k ∈ m.map Prod.fst then m.map Prod.fst else m.map Prod.fst ++ [k] := by
  induction m with
  | nil => simp [upsert]
  | cons p rest ih =>
    obtain ⟨k', v⟩ := p
    by_cases h : k' = k
    · subst h
      simp [upsert]
    · have h2 : k ≠ k' := fun hh => h hh.symm
      by_cases hm : k ∈ rest.map Prod.fst <;> simp [upsert, h, h2, hm, ih]

theorem nodup_keys_upsert {α : Type} (k : String) (f : α → α) (d : α)
    (m : List (String × α)) (h : (m.map Prod.fst).Nodup) :
    ((upsert k f d m).map Prod.fst).Nodup := by
  rw [keys_upsert]
  by_cases hm : k ∈ m.map Prod.fst
  · simpa [hm]
  · simpa [hm, List.nodup_append]

theorem upsert_forall {α : Type} (P : α → Prop) (k : String) (f : α → α) (d : α)
    (m : List (String × α)) (hm : ∀ p ∈ m, P p.2) (hd : P (f d))
    (hf : ∀ v, P v → P (f v)) : ∀ p ∈ upsert k f d m, P p.2 := by
  induction m with
  | nil =>
    intro p hp
    simp [upsert] at hp
    subst hp
    exact hd
  | cons q rest ih =>
    obtain ⟨k', v⟩ := q
    by_cases h : k' = k
    · intro p hp
      simp [upsert, h] at hp
      rcases hp with hp | hp
      · subst hp
        exact hf v (hm ⟨k', v⟩ (by simp))
      · exact hm p (by simp [hp])
    · intro p hp
      simp [upsert, h] at hp
      rcases hp with hp | hp
      · subst hp
        exact hm ⟨k', v⟩ (by simp)
      · exact ih (fun q hq => hm q (by simp [hq])) p hp

theorem upsert_not_mem {α : Type} (k : String) (f : α → α) (d : α)
    (m : List (String × α)) (h : k ∉ m.map Prod.fst) :
    upsert k f d m = m ++ [(k, f d)] := by
  induction m with
  | nil => rfl
  | cons p rest ih =>
    obtain ⟨k', v⟩ := p
    simp only [List.map_cons, List.mem_cons] at h
    push_neg at h
    have h1 : k' ≠ k := fun hh => h.1 hh.symm
    simp [upsert, h1, ih h.2]

theorem upsert_append_sing {α : Type} (k : String) (f : α → α) (d : α)
    (acc : List (String × α)) (w : α) (h : k ∉ acc.map Prod.fst) :
    upsert k f d (acc ++ [(k, w)]) = acc ++ [(k, f w)] := by
  induction acc with
  | nil => simp [upsert]
  | cons p rest ih =>
    obtain ⟨k', v⟩ := p
    simp only [List.map_cons, List.mem_cons] at h
    push_neg at h
    have h1 : k' ≠ k := fun hh => h.1 hh.symm
    simp [upsert, h1, ih h.2]

theorem lookupA_upsert {α : Type} (k k' : String) (f : α → α) (d : α)
    (m : List (String × α)) :
    lookupA (upsert k f d m) k' =
      if k = k' then some (f ((lookupA m k).getD d)) else lookupA m k' := by
  induction m with
  | nil => simp [upsert, lookupA]
  | cons p rest ih =>
    obtain ⟨k'', v⟩ := p
    by_cases h : k'' = k
    · subst h
      by_cases h2 : k'' = k' <;> simp [upsert, lookupA, h2]
    · by_cases h2 : k'' = k'
      · subst h2
        have h3 : k ≠ k'' := fun hh => h hh.symm
        simp [upsert, lookupA, h, h3]
      · simp [upsert, lookupA, h, h2, ih]

theorem colMapOk_setk (c : String) (d : ColumnDescriptor) (cm : ColMap)
    (h : ColMapOk cm) : ColMapOk (setk c d cm) := by
  rw [setk_eq_upsert c d d cm]
  exact ⟨upsert_ne_nil _ _ _ _, nodup_keys_upsert _ _ _ _ h.2⟩

theorem tabMapOk_upsert (t c : String) (d : ColumnDescriptor) (tm : TabMap)
    (h : TabMapOk tm) : TabMapOk (upsert t (fun cm => setk c d cm) [] tm) := by
  refine ⟨upsert_ne_nil _ _ _ _, nodup_keys_upsert _ _ _ _ h.2.1, ?_⟩
  exact upsert_forall ColMapOk t _ [] tm h.2.2
    (by simp [setk, ColMapOk]) (fun v hv => colMapOk_setk c d v hv)

theorem treeOk_insertCol (tr : SchemaTree) (s t c : String) (d : ColumnDescriptor)
    (h : TreeOk tr) : TreeOk (insertCol tr s t c d) := by
  refine ⟨nodup_keys_upsert _ _ _ _ h.1, ?_⟩
  refine upsert_forall TabMapOk s _ [] tr h.2 ?_ (fun v hv => tabMapOk_upsert t c d v hv)
  constructor
  · simp [upsert]
  constructor
  · simp [upsert]
  · intro p hp
    simp [upsert, setk] at hp
    subst hp
    exact ⟨by simp, by simp⟩

theorem parseLoop_treeOk :
    ∀ (rows : List Row) (acc : SchemaTree) (tr : SchemaTree),
      TreeOk acc → parseLoop rows acc = some tr → TreeOk tr := by
  intro rows
  induction rows with
  | nil =>
    intro acc tr h hp
    simp [parseLoop] at hp
    subst hp
    exact h
  | cons r rest ih =>
    intro acc tr h hp
    cases r with
    | mk s t c d n l =>
      exact ih _ tr (treeOk_insertCol acc s t c ⟨d, n, l⟩ h) hp
    | malformed a => simp [parseLoop] at hp

theorem parse_tables_treeOk (rows : List Row) (tr : SchemaTree)
    (h : parse_tables rows = some tr) : TreeOk tr :=
  parseLoop_treeOk rows [] tr ⟨List.nodup_nil, by simp⟩ h

theorem parseLoop_none_iff :
    ∀ (rows : List Row) (acc : SchemaTree),
      parseLoop rows acc = none ↔ ∃ r ∈ rows, r.isMk = false := by
  intro rows
  induction rows with
  | nil => intro acc; simp [parseLoop]
  | cons r rest ih =>
    intro acc
    cases r with
    | mk s t c d n l => simp [parseLoop, Row.isMk, ih]
    | malformed a => simp [parseLoop, Row.isMk]

theorem lookup3_insertCol (tr : SchemaTree) (s t c s' t' c' : String)
    (d : ColumnDescriptor) :
    lookup3 (insertCol tr s t c d) s' t' c' =
      if s = s' ∧ t = t' ∧ c = c' then some d else lookup3 tr s' t' c' := by
  unfold lookup3 insertCol
  rw [lookupA_upsert]
  by_cases hs : s = s'
  · subst hs
    simp only [eq_self_iff_true, if_true, true_and]
    rw [lookupA_upsert]
    by_cases ht : t = t'
    · subst ht
      simp only [eq_self_iff_true, if_true, true_and]
      rw [setk_eq_upsert c d d, lookupA_upsert]
      by_cases hc : c = c'
      · simp [hc]
      · simp only [if_neg hc, if_neg (fun h : c = c' => hc h)]
        cases hl : lookupA tr s with
        | none => simp [lookupA]
        | some tm =>
          cases hl2 : lookupA tm t with
          | none => simp [hl2, lookupA]
          | some cm => simp [hl2]
    · simp only [if_neg ht, if_neg (fun h : t = t' ∧ c = c' => ht h.1)]
      cases hl : lookupA tr s with
      | none => simp [lookupA]
      | some tm => simp
  · simp [if_neg hs, if_neg (fun h : s = s' ∧ t = t' ∧ c = c' => hs h.1)]

theorem parseLoop_lookup3 :
    ∀ (rows : List Row) (acc tr : SchemaTree) (s t c : String),
      parseLoop rows acc = some tr →
      lookup3 tr s t c =
        match lastSeen s t c rows with
        | some d => some d
        | none => lookup3 acc s t c := by
  intro rows
  induction rows with
  | nil =>
    intro acc tr s t c hp
    simp [parseLoop] at hp
    subst hp
    simp [lastSeen]
  | cons r rest ih =>
    intro acc tr s t c hp
    cases r with
    | mk s' t' c' d n l =>
      have := ih (insertCol acc s' t' c' ⟨d, n, l⟩) tr s t c hp
      rw [this, lookup3_insertCol]
      cases hl : lastSeen s t c rest with
      | some d0 => simp [lastSeen, hl]
      | none =>
        simp only [lastSeen, hl]
        by_cases hk : s' = s ∧ t' = t ∧ c' = c
        · simp [hk, rowMatches, descOf, hk.1, hk.2.1, hk.2.2]
        · have : rowMatches s t c (Row.mk s' t' c' d n l) = false := by
            simp [rowMatches]
            intro h1 h2
            by_contra h3
            exact hk ⟨h1, h2, h3⟩
          simp [hk, this]
    | malformed a => simp [parseLoop] at hp

theorem setk_not_mem {α : Type} (k : String) (v : α) (m : List (String × α))
    (h : k ∉ m.map Prod.fst) : setk k v m = m ++ [(k, v)] := by
  rw [setk_eq_upsert k v v m, upsert_not_mem k _ v m h]

theorem build_colmap :
    ∀ (cs : ColMap) (acc : ColMap), (cs.map Prod.fst).Nodup →
      (∀ k ∈ cs.map Prod.fst, k ∉ acc.map Prod.fst) →
      cs.foldl (fun a p => setk p.1 p.2 a) acc = acc ++ cs := by
  intro cs
  induction cs with
  | nil => intro acc _ _; simp
  | cons p rest ih =>
    intro acc hnd hdis
    obtain ⟨c, d⟩ := p
    simp only [List.map_cons] at hnd
    have hnc : c ∉ rest.map Prod.fst := (List.nodup_cons.mp hnd).1
    have hnd' : (rest.map Prod.fst).Nodup := (List.nodup_cons.mp hnd).2
    simp only [List.foldl_cons]
    rw [setk_not_mem c d acc (hdis c (by simp))]
    rw [ih (acc ++ [(c, d)]) hnd' ?_]
    · simp
    · intro k hk
      simp only [List.map_append, List.mem_append, List.map_cons, List.map_nil]
      push_neg
      refine ⟨hdis k (by simp [hk]), ?_⟩
      simp only [List.mem_singleton]
      intro hkc
      subst hkc
      exact hnc hk

theorem build_into_table :
    ∀ (ps : List (String × ColumnDescriptor)) (acc : TabMap) (t : String) (w : ColMap),
      t ∉ acc.map Prod.fst →
      (ps.map (fun cp => (t, cp.1, cp.2))).foldl stepTab (acc ++ [(t, w)]) =
        acc ++ [(t, ps.foldl (fun a p => setk p.1 p.2 a) w)] := by
  intro ps
  induction ps with
  | nil => intro acc t w _; simp
  | cons p rest ih =>
    intro acc t w ht
    obtain ⟨c, d⟩ := p
    simp only [List.map_cons, List.foldl_cons]
    have hstep : stepTab (acc ++ [(t, w)]) (t, c, d) = acc ++ [(t, setk c d w)] := by
      unfold stepTab
      exact upsert_append_sing t _ [] acc w ht
    rw [hstep, ih acc t (setk c d w) ht]

theorem build_one_table :
    ∀ (cm : ColMap) (acc : TabMap) (t : String), ColMapOk cm →
      t ∉ acc.map Prod.fst →
      (cm.map (fun cp => (t, cp.1, cp.2))).foldl stepTab acc = acc ++ [(t, cm)] := by
  intro cm acc t hok ht
  obtain ⟨hne, hnd⟩ := hok
  cases cm with
  | nil => exact absurd rfl hne
  | cons p cs =>
    obtain ⟨c1, d1⟩ := p
    simp only [List.map_cons] at hnd
    have hnc : c1 ∉ cs.map Prod.fst := (List.nodup_cons.mp hnd).1
    have hnd' : (cs.map Prod.fst).Nodup := (List.nodup_cons.mp hnd).2
    simp only [List.map_cons, List.foldl_cons]
    have hstep : stepTab acc (t, c1, d1) = acc ++ [(t, [(c1, d1)])] := by
      unfold stepTab
      rw [upsert_not_mem t _ [] acc ht]
      rfl
    rw [hstep, build_into_table cs acc t [(c1, d1)] ht]
    have hre : cs.foldl (fun a p => setk p.1 p.2 a) [(c1, d1)] = [(c1, d1)] ++ cs := by
      apply build_colmap cs [(c1, d1)] hnd'
      intro k hk
      simp only [List.map_cons, List.map_nil, List.mem_singleton]
      intro hkc
      subst hkc
      exact hnc hk
    rw [hre]
    simp

theorem build_tabmap :
    ∀ (tm : TabMap) (acc : TabMap), (tm.map Prod.fst).Nodup →
      (∀ p ∈ tm, ColMapOk p.2) →
      (∀ k ∈ tm.map Prod.fst, k ∉ acc.map Prod.fst) →
      (flatTab tm).foldl stepTab acc = acc ++ tm := by
  intro tm
  induction tm with
  | nil => intro acc _ _ _; simp [flatTab]
  | cons p rest ih =>
    intro acc hnd hcols hdis
    obtain ⟨t, cm⟩ := p
    simp only [List.map_cons] at hnd
    have hnc : t ∉ rest.map Prod.fst := (List.nodup_cons.mp hnd).1
    have hnd' : (rest.map Prod.fst).Nodup := (List.nodup_cons.mp hnd).2
    have hflat : flatTab ((t, cm) :: rest) =
        cm.map (fun cp => (t, cp.1, cp.2)) ++ flatTab rest := by
      simp [flatTab]
    rw [hflat, List.foldl_append]
    rw [build_one_table cm acc t (hcols ⟨t, cm⟩ (by simp)) (hdis t (by simp))]
    rw [ih (acc ++ [(t, cm)]) hnd' (fun q hq => hcols q (by simp [hq])) ?_]
    · simp
    · intro k hk
      simp only [List.map_append, List.mem_append, List.map_cons, List.map_nil]
      push_neg
      refine ⟨hdis k (by simp [hk]), ?_⟩
      simp only [List.mem_singleton]
      intro hkc
      subst hkc
      exact hnc hk

theorem build_into_schema :
    ∀ (qs : List (String × String × ColumnDescriptor)) (acc : SchemaTree)
      (s : String) (w : TabMap),
      s ∉ acc.map Prod.fst →
      (qs.map (fun q => (s, q))).foldl stepTree (acc ++ [(s, w)]) =
        acc ++ [(s, qs.foldl stepTab w)] := by
  intro qs
  induction qs with
  | nil => intro acc s w _; simp
  | cons q rest ih =>
    intro acc s w hs
    obtain ⟨t, c, d⟩ := q
    simp only [List.map_cons, List.foldl_cons]
    have hstep : stepTree (acc ++ [(s, w)]) (s, t, c, d) =
        acc ++ [(s, stepTab w (t, c, d))] := by
      unfold stepTree insertCol stepTab
      exact upsert_append_sing s _ [] acc w hs
    rw [hstep, ih acc s (stepTab w (t, c, d)) hs]

theorem flatTab_ne_nil (tm : TabMap) (h : TabMapOk tm) : flatTab tm ≠ [] := by
  obtain ⟨hne, _, hcols⟩ := h
  cases tm with
  | nil => exact absurd rfl hne
  | cons p rest =>
    obtain ⟨t, cm⟩ := p
    have hcm : cm ≠ [] := (hcols ⟨t, cm⟩ (by simp)).1
    cases cm with
    | nil => exact absurd rfl hcm
    | cons c cs => simp [flatTab]

theorem build_one_schema :
    ∀ (tm : TabMap) (acc : SchemaTree) (s : String), TabMapOk tm →
      s ∉ acc.map Prod.fst →
      ((flatTab tm).map (fun q => (s, q))).foldl stepTree acc = acc ++ [(s, tm)] := by
  intro tm acc s hok hs
  cases hflat : flatTab tm with
  | nil => exact absurd hflat (flatTab_ne_nil tm hok)
  | cons q0 qs =>
    simp only [List.map_cons, List.foldl_cons]
    have hstep : stepTree acc (s, q0) = acc ++ [(s, stepTab [] q0)] := by
      unfold stepTree insertCol stepTab
      rw [upsert_not_mem s _ [] acc hs]
    rw [hstep, build_into_schema qs acc s (stepTab [] q0) hs]
    have hq : qs.foldl stepTab (stepTab [] q0) = (flatTab tm).foldl stepTab [] := by
      rw [hflat]
      simp
    rw [hq, build_tabmap tm [] hok.2.1 hok.2.2 (by simp)]
    simp

theorem build_tree :
    ∀ (tr : SchemaTree) (acc : SchemaTree), (tr.map Prod.fst).Nodup →
      (∀ p ∈ tr, TabMapOk p.2) →
      (∀ k ∈ tr.map Prod.fst, k ∉ acc.map Prod.fst) →
      (flatQuads tr).foldl stepTree acc = acc ++ tr := by
  intro tr
  induction tr with
  | nil => intro acc _ _ _; simp [flatQuads]
  | cons p rest ih =>
    intro acc hnd htabs hdis
    obtain ⟨s, tm⟩ := p
    simp only [List.map_cons] at hnd
    have hnc : s ∉ rest.map Prod.fst := (List.nodup_cons.mp hnd).1
    have hnd' : (rest.map Prod.fst).Nodup := (List.nodup_cons.mp hnd).2
    have hflat : flatQuads ((s, tm) :: rest) =
        (flatTab tm).map (fun q => (s, q)) ++ flatQuads rest := by
      simp [flatQuads]
    rw [hflat, List.foldl_append]
    rw [build_one_schema tm acc s (htabs ⟨s, tm⟩ (by simp)) (hdis s (by simp))]
    rw [ih (acc ++ [(s, tm)]) hnd' (fun q hq => htabs q (by simp [hq])) ?_]
    · simp
    · intro k hk
      simp only [List.map_append, List.mem_append, List.map_cons, List.map_nil]
      push_neg
      refine ⟨hdis k (by simp [hk]), ?_⟩
      simp only [List.mem_singleton]
      intro hkc
      subst hkc
      exact hnc hk

theorem flattenTree_eq (tr : SchemaTree) :
    flattenTree tr = (flatQuads tr).map rowOfQuad := by
  simp only [flattenTree, flatQuads, flatTab, List.map_flatMap, List.map_map]
  rfl

theorem parseLoop_map_rowOfQuad :
    ∀ (qs : List (String × String × String × ColumnDescriptor)) (acc : SchemaTree),
      parseLoop (qs.map rowOfQuad) acc = some (qs.foldl stepTree acc) := by
  intro qs
  induction qs with
  | nil => intro acc; simp [parseLoop]
  | cons q rest ih =>
    intro acc
    obtain ⟨s, t, c, d⟩ := q
    simp only [List.map_cons, rowOfQuad, parseLoop, List.foldl_cons]
    exact ih _

/-- C1: `check_query` returns `true` iff the trimmed string is non-empty and
its first whitespace-delimited token, uppercased, is exactly one of SELECT,
SHOW, DESCRIBE, DESC, EXPLAIN; every empty or all-whitespace string is
rejected. -/
theorem check_query_matches_spec :
    ∀ s : String, (check_query s = true ↔ isSafeSpec s) ∧
      (pyStrip s.data = [] → check_query s = false) := by
  intro s
  constructor
  · by_cases h : pyStrip s.data = []
    · simp [check_query, isSafeSpec, h]
    · simp [check_query, isSafeSpec, h]
  · intro h
    simp [check_query, h]

/-- Witness for C1 at concrete inputs: an all-whitespace query is rejected and
the spec's example `"  select * from t"` is accepted. -/
theorem check_query_matches_spec_witness :
    check_query "   " = false ∧ check_query "  select * from t" = true :=
  ⟨(check_query_matches_spec "   ").2 (by decide),
   ((check_query_matches_spec "  select * from t").1.mpr ⟨by decide, by decide⟩)⟩

/-- C2: whenever the guard rejects a query, `execute_query` returns the
guard-rejection payload (message naming the non-safe first word, error flag
set) and never touches the connection/executor (invocation flag `false`). -/
theorem guard_reject_no_execution :
    ∀ (conn : ConnAttempt) (query : String), check_query query = false →
      execute_query conn query =
        (Except.ok (Resp.dict [("message", PyObj.v (Value.str "This query use non-safe first word")),
                               ("error", PyObj.v (Value.bool true))]), false) := by
  intro conn query h
  simp [execute_query, h]

/-- Witness for C2: `execute_query` on `"DELETE FROM users"` returns the
rejection payload without invoking the executor. -/
theorem guard_reject_no_execution_witness :
    execute_query (ConnAttempt.fail "db is down") "DELETE FROM users" =
      (Except.ok (Resp.dict [("message", PyObj.v (Value.str "This query use non-safe first word")),
                             ("error", PyObj.v (Value.bool true))]), false) :=
  guard_reject_no_execution (ConnAttempt.fail "db is down") "DELETE FROM users" (by decide)

/-- C3 (failing-input evaluation): against a stub executor returning columns
`["x"]` and one row `[1]`, `execute_query "SELECT 1"` never returns the row
mappings: `json.dumps` makes `response` a string, `pydantic.BaseModel(**response)`
raises `TypeError` at the `**`, and the `except` handler's own
`pydantic.BaseModel(**err_response)` then raises `PydanticUserError`, which
escapes the operation uncaught — even though the intended `QueryResult` row
mapping `[("x", 1)]` had been computed by `zipRow`. -/
theorem select_one_stub_raises :
    (execute_query (ConnAttempt.ok stubExecC3) "SELECT 1").1 =
        Except.error pydanticUserError ∧
      (execute_query (ConnAttempt.ok stubExecC3) "SELECT 1").2 = true ∧
      zipRow ["x"] [Value.int 1] = [("x", Value.int 1)] := by
  refine ⟨?_, ?_, ?_⟩ <;> rfl

/-- C5 (failing evaluation): on every executor failure — connection
acquisition, the executed query, or the first status diagnostic query — the
`except` handler itself evaluates `pydantic.BaseModel(**err_response)`, which
raises `PydanticUserError` under pydantic v2; the exception escapes the
public operation boundary and no payload carrying the message prefix or the
error detail is ever returned, contradicting the claim and the functions'
own docstrings. -/
theorem executor_failure_raises :
    (∀ (conn : ConnAttempt) (query : String) (e : String),
        check_query query = true →
        (conn = ConnAttempt.fail e ∨
          ∃ ex, conn = ConnAttempt.ok ex ∧ ex query = ExecOutcome.fail e) →
        (execute_query conn query).1 = Except.error pydanticUserError) ∧
    (∀ (ctx : Ctx) (conn : ConnAttempt) (e : String),
        (conn = ConnAttempt.fail e ∨
          ∃ ex, conn = ConnAttempt.ok ex ∧ ex _query2 = ExecOutcome.fail e) →
        database_status ctx conn = Except.error pydanticUserError) := by
  constructor
  · intro conn query e hq hfail
    rcases hfail with rfl | ⟨ex, rfl, hex⟩
    · simp [execute_query, execBody, errHandler, baseModel, hq]
    · simp [execute_query, execBody, errHandler, baseModel, hq, hex]
  · intro ctx conn e hfail
    rcases hfail with rfl | ⟨ex, rfl, hex⟩
    · simp [database_status, statusBody, errHandler, baseModel]
    · simp [database_status, statusBody, fetchone, errHandler, baseModel, hex]

/-- Witness for C5 at a concrete failing connection: both operations raise. -/
theorem executor_failure_raises_witness :
    (execute_query (ConnAttempt.fail "connection refused") "SELECT 1").1 =
        Except.error pydanticUserError ∧
      database_status ⟨Value.null, Value.null⟩ (ConnAttempt.fail "connection refused") =
        Except.error pydanticUserError :=
  ⟨executor_failure_raises.1 (ConnAttempt.fail "connection refused") "SELECT 1"
      "connection refused" (by decide) (Or.inl rfl),
   executor_failure_raises.2 ⟨Value.null, Value.null⟩ (ConnAttempt.fail "connection refused")
      "connection refused" (Or.inl rfl)⟩

/-- C9 (failing evaluation): when either diagnostic query fails — including
the second after the first succeeded — `database_status` does not return an
error payload of any shape: its `except` handler raises `PydanticUserError`
past the boundary, so no value at all is returned (in particular no
half-populated success-shaped payload), contradicting the claim and the
function's docstring. -/
theorem status_diag_failure_raises :
    ∀ (ctx : Ctx) (ex : String → ExecOutcome) (e : String),
      (ex _query2 = ExecOutcome.fail e ∨
        (∃ cols rows, ex _query2 = ExecOutcome.ok cols rows ∧ ex _query1 = ExecOutcome.fail e)) →
      database_status ctx (ConnAttempt.ok ex) = Except.error pydanticUserError ∧
      ∀ r, database_status ctx (ConnAttempt.ok ex) ≠ Except.ok r := by
  intro ctx ex e hfail
  have hraise : database_status ctx (ConnAttempt.ok ex) = Except.error pydanticUserError := by
    rcases hfail with h2 | ⟨cols, rows, h2, h1⟩
    · simp [database_status, statusBody, fetchone, errHandler, baseModel, h2]
    · simp [database_status, statusBody, fetchone, errHandler, baseModel, h2, h1]
  refine ⟨hraise, ?_⟩
  intro r
  rw [hraise]
  simp

/-- Witness for C9: the second diagnostic query fails after the first
succeeded, and the probe raises instead of returning any payload. -/
theorem status_diag_failure_raises_witness :
    database_status ⟨Value.str "c1", Value.str "r1"⟩ (ConnAttempt.ok stubStatusExec) =
      Except.error pydanticUserError :=
  (status_diag_failure_raises ⟨Value.str "c1", Value.str "r1"⟩ stubStatusExec "timeout"
    (Or.inr ⟨["current_database"], [[Value.str "postgres"]], rfl, rfl⟩)).1

/-- C4 counterexample: on a malformed (wrong-arity) row, `parse_tables`
returns the plain absent value `None` — the caller receives no explicit
`InvalidInput` error, refuting the claim as stated. -/
theorem parse_tables_malformed_cex : parse_tables [Row.malformed 2] = none := rfl

/-- C4 (amended): for every input containing a malformed (wrong-arity) row,
`parse_tables` catches the unpacking error internally and returns `None`;
it never returns a partially built tree, but the caller receives the absent
value rather than an explicit `InvalidInput` error. -/
theorem parse_tables_malformed_silent_none :
    ∀ rows : List Row, (∃ r ∈ rows, r.isMk = false) → parse_tables rows = none := by
  intro rows h
  exact (parseLoop_none_iff rows []).mpr h

/-- Witness for the amended C4: a well-formed row followed by a malformed one
yields `None`, not a partial tree. -/
theorem parse_tables_malformed_silent_none_witness :
    parse_tables
      [Row.mk "public" "users" "id" (Value.str "integer") (Value.str "NO") Value.null,
       Row.malformed 3] = none :=
  parse_tables_malformed_silent_none _ ⟨Row.malformed 3, by simp, rfl⟩

/-- C6: every tree produced by `parse_tables` has no schema key and no table
key whose value is an empty mapping; every leaf is a full `ColumnDescriptor`
by construction of the leaf type. -/
theorem schema_tree_no_empty_mappings :
    ∀ (rows : List Row) (tr : SchemaTree), parse_tables rows = some tr →
      ∀ sp ∈ tr, sp.2 ≠ [] ∧ ∀ tp ∈ sp.2, tp.2 ≠ [] := by
  intro rows tr h sp hsp
  have hok := parse_tables_treeOk rows tr h
  have htm := hok.2 sp hsp
  exact ⟨htm.1, fun tp htp => (htm.2.2 tp htp).1⟩

/-- Witness for C6 on the one-row input. -/
theorem schema_tree_no_empty_mappings_witness :
    ([("users", [("id", (⟨Value.str "integer", Value.str "NO", Value.null⟩ : ColumnDescriptor))])] : TabMap) ≠ [] ∧
      ∀ tp ∈ ([("users", [("id", (⟨Value.str "integer", Value.str "NO", Value.null⟩ : ColumnDescriptor))])] : TabMap),
        tp.2 ≠ [] :=
  schema_tree_no_empty_mappings
    [Row.mk "public" "users" "id" (Value.str "integer") (Value.str "NO") Value.null]
    [("public", [("users", [("id", ⟨Value.str "integer", Value.str "NO", Value.null⟩)])])]
    rfl
    ("public", [("users", [("id", ⟨Value.str "integer", Value.str "NO", Value.null⟩)])])
    (by simp)

/-- C7: `parse_tables` is idempotent under re-normalization of its own
flattened output: flattening any tree it produces back into
`(schema, table, column, dtype, nullable, maxlen)` rows and parsing again
yields the identical tree. -/
theorem parse_tables_idempotent :
    ∀ (rows : List Row) (tr : SchemaTree), parse_tables rows = some tr →
      parse_tables (flattenTree tr) = some tr := by
  intro rows tr h
  have hok := parse_tables_treeOk rows tr h
  rw [parse_tables, flattenTree_eq, parseLoop_map_rowOfQuad,
    build_tree tr [] hok.1 hok.2 (by simp)]
  simp

/-- Witness for C7 on the spec's example rows. -/
theorem parse_tables_idempotent_witness :
    parse_tables (flattenTree exTree) = some exTree :=
  parse_tables_idempotent exRows exTree rfl

/-- C8: on any sequence of well-formed rows — duplicates included —
`parse_tables` raises no error, and the tree's entry for every
`(schema, table, column)` key is the descriptor of the last row carrying that
key. -/
theorem parse_tables_last_wins :
    ∀ (rows : List Row) (s t c : String), (∀ r ∈ rows, r.isMk = true) →
      ∃ tr, parse_tables rows = some tr ∧ lookup3 tr s t c = lastSeen s t c rows := by
  intro rows s t c hwf
  have hne : parse_tables rows ≠ none := by
    rw [Ne, parse_tables, parseLoop_none_iff]
    rintro ⟨r, hr, hbad⟩
    rw [hwf r hr] at hbad
    exact Bool.noConfusion hbad
  obtain ⟨tr, htr⟩ := Option.ne_none_iff_exists'.mp hne
  refine ⟨tr, htr, ?_⟩
  rw [parseLoop_lookup3 rows [] tr s t c htr]
  cases hl : lastSeen s t c rows <;> simp [lookup3, lookupA]

/-- Witness for C8 on two duplicate-key rows. -/
theorem parse_tables_last_wins_witness :
    ∃ tr, parse_tables dupRows = some tr ∧
      lookup3 tr "public" "users" "id" = lastSeen "public" "users" "id" dupRows :=
  parse_tables_last_wins dupRows "public" "users" "id" (by decide)

/-- C10: `parse_tables` is total and never propagates an exception: it returns
the absent value `none` exactly when some row is malformed, carrying no
information about the kind of failure. -/
theorem parse_tables_total_none_iff :
    ∀ rows : List Row, parse_tables rows = none ↔ ∃ r ∈ rows, r.isMk = false := by
  intro rows
  exact parseLoop_none_iff rows []
